import Mathlib

/-!
A shallow embedding of `setquota.c`.

Strings are lists of characters without the terminating NUL, so `*p == 0`
becomes `p = []`.  Values of type `uint32_t` are naturals reduced modulo
`2 ^ 32` wherever the C code can wrap.  Calls into the operating system
(open, ioctl, lseek, stat, getmntent, ...) take their outcome from an
environment record and are logged in a trace of events, which is what the
resource and ordering statements are about.
-/

namespace Setquota

/-! ## The C library pieces used by `strisnum` -/

/-- C locale `isspace`: space, and the range tab .. carriage return. -/
def isspace (c : Char) : Bool :=
  c.toNat = 32 || (9 ≤ c.toNat && c.toNat ≤ 13)

/-- Value of a character as a digit (`0-9`, `a-z`, `A-Z`), as `strtoul` reads it. -/
def digitVal (c : Char) : Option Nat :=
  if 48 ≤ c.toNat ∧ c.toNat ≤ 57 then some (c.toNat - 48)
  else if 97 ≤ c.toNat ∧ c.toNat ≤ 122 then some (c.toNat - 87)
  else if 65 ≤ c.toNat ∧ c.toNat ≤ 90 then some (c.toNat - 55)
  else none

/-- The loop `while (isspace(*str)) str++`. -/
def skipSpace : List Char → List Char
  | [] => []
  | c :: cs => if isspace c then skipSpace cs else c :: cs

/-- Longest run of digits valid in `base`: their values, and what follows. -/
def scanDigits (base : Nat) : List Char → List Nat × List Char
  | [] => ([], [])
  | c :: cs =>
    match digitVal c with
    | some d =>
      if d < base then (d :: (scanDigits base cs).1, (scanDigits base cs).2)
      else ([], c :: cs)
    | none => ([], c :: cs)

/-- Number denoted by a list of digit values, most significant first. -/
def digitsValue (base : Nat) (ds : List Nat) : Nat :=
  ds.foldl (fun acc d => acc * base + d) 0

/-- Optional sign of `strtoul`: whether it is a minus, and the rest. -/
def takeSign : List Char → Bool × List Char
  | c :: cs => if c = '-' then (true, cs) else if c = '+' then (false, cs) else (false, c :: cs)
  | [] => (false, [])

/-- Does the text start with `0x` or `0X` followed by a hexadecimal digit? -/
def startsHex : List Char → Bool
  | z :: x :: h :: _ =>
    z = '0' && (x = 'x' || x = 'X') &&
      (match digitVal h with
       | some d => decide (d < 16)
       | none => false)
  | _ => false

/-- Base selection of `strtoul`: the base used and the text at its first digit. -/
def pickBase (base : Nat) (s : List Char) : Nat × List Char :=
  if (base = 0 ∨ base = 16) ∧ startsHex s = true then (16, s.drop 2)
  else if base = 0 then (if s.head? = some '0' then (8, s) else (10, s))
  else (base, s)

/-- ISO C `strtoul(nptr, &endptr, base)` for `base` 0 or 2..36: the value
returned and the text `endptr` points to.  `ulmax` is `ULONG_MAX` of the
platform.  Without any digit the value is 0 and `endptr` is `nptr`; a value
out of range is clamped to `ULONG_MAX`; a minus sign negates in
`unsigned long`. -/
def strtoul (ulmax : Nat) (nptr : List Char) (base : Nat) : Nat × List Char :=
  let sg := takeSign (skipSpace nptr)
  let pb := pickBase base sg.2
  let sc := scanDigits pb.1 pb.2
  if sc.1 = [] then (0, nptr)
  else
    let v := digitsValue pb.1 sc.1
    if ulmax < v then (ulmax, sc.2)
    else if sg.1 then ((ulmax + 1 - v) % (ulmax + 1), sc.2)
    else (v, sc.2)

/-! ## `strisnum` and `setnum` -/

/-- Lines 224-231 of `strisnum`: skip white space, then strip `0b`/`0B` and
select base 2; otherwise base 0 (automatic). -/
def strisnumHead (str : List Char) : List Char × Nat :=
  let s := skipSpace str
  if s.take 2 = ['0', 'b'] ∨ s.take 2 = ['0', 'B'] then (s.drop 2, 2) else (s, 0)

/-- The function `strisnum(str, val)` with `str` and `val` not NULL: the
return value (1 numeric, 0 not) and the content of `*val` afterwards. -/
def strisnum (ulmax : Nat) (str : List Char) (val : Nat) : Int × Nat :=
  let p := strisnumHead str
  if p.1 = [] then (0, val)
  else
    let r := strtoul ulmax p.1 p.2
    (if r.2 = [] then 1 else 0, r.1 % 2 ^ 32)

/-- Diagnostics `setnum` writes to stderr. -/
inductive Diag where
  | missingDelim
  | notNumeric (s : List Char)
  deriving DecidableEq, Repr

/-- The call `strchr(str, c)` followed by `*pt++ = 0`: the text before the first
`c` and the text after it, or `none` when `c` does not occur. -/
def splitFirst (c : Char) : List Char → Option (List Char × List Char)
  | [] => none
  | x :: xs =>
    if x = c then some ([], xs)
    else
      match splitFirst c xs with
      | some p => some (x :: p.1, p.2)
      | none => none

/-- Outcome of `setnum`: return value, `*a` and `*b` afterwards, diagnostic. -/
structure SetnumResult where
  ret : Int
  a : Nat
  b : Nat
  err : Option Diag
  deriving DecidableEq, Repr

/-- The function `setnum(str, a, b)`; `a0` and `b0` are `*a` and `*b` on entry. -/
def setnum (ulmax : Nat) (str : List Char) (a0 b0 : Nat) : SetnumResult :=
  match splitFirst ':' str with
  | none => ⟨-1, a0, b0, some Diag.missingDelim⟩
  | some (l, pt) =>
    let ra := strisnum ulmax l a0
    if ra.1 = 0 then ⟨-1, ra.2, b0, some (Diag.notNumeric l)⟩
    else
      let rb := strisnum ulmax pt b0
      if rb.1 = 0 then ⟨-1, ra.2, rb.2, some (Diag.notNumeric pt)⟩
      else ⟨0, ra.2, rb.2, none⟩

/-! ## Literals, as the specification describes them -/

/-- Is `c` a digit of the given base? -/
def digitIn (base : Nat) (c : Char) : Bool :=
  match digitVal c with
  | some d => decide (d < base)
  | none => false

/-- Value of a digit string in the given base. -/
def litValue (base : Nat) (ds : List Char) : Nat :=
  digitsValue base (ds.map (fun c => (digitVal c).getD 0))

/-- `NumLiteral n s`: the text `s` is a C style literal of the number `n`. -/
inductive NumLiteral : Nat → List Char → Prop where
  | decimal (ds : List Char) (hne : ds ≠ []) (hd : ∀ c ∈ ds, digitIn 10 c = true)
      (h0 : ds.head? ≠ some '0') : NumLiteral (litValue 10 ds) ds
  | octal (ds : List Char) (hd : ∀ c ∈ ds, digitIn 8 c = true) :
      NumLiteral (litValue 8 ds) ('0' :: ds)
  | hex (x : Char) (ds : List Char) (hx : x = 'x' ∨ x = 'X') (hne : ds ≠ [])
      (hd : ∀ c ∈ ds, digitIn 16 c = true) : NumLiteral (litValue 16 ds) ('0' :: x :: ds)
  | binary (b : Char) (ds : List Char) (hb : b = 'b' ∨ b = 'B') (hne : ds ≠ [])
      (hd : ∀ c ∈ ds, digitIn 2 c = true) : NumLiteral (litValue 2 ds) ('0' :: b :: ds)


/-! ## Quota records, the environment and the trace -/

def DISK_SOFT : Nat := 0x01
def DISK_HARD : Nat := 0x02
def FILES_SOFT : Nat := 0x04
def FILES_HARD : Nat := 0x08
def TIME_DISK : Nat := 0x10
def TIME_FILES : Nat := 0x20

def ESRCH : Nat := 3

def QUOTAFILE : String := "quotas"
def DEFAULT_MNTTAB : String := "/etc/mnttab"

def EXIT_SUCCESS : Nat := 0
def EXIT_FAILURE : Nat := 1

/-- The record `struct dqblk` of `<sys/fs/ufs_quota.h>`; every field is a `uint32_t`. -/
structure Dqblk where
  dqb_bhardlimit : Nat
  dqb_bsoftlimit : Nat
  dqb_curblocks : Nat
  dqb_fhardlimit : Nat
  dqb_fsoftlimit : Nat
  dqb_curfiles : Nat
  dqb_btimelimit : Nat
  dqb_ftimelimit : Nat
  deriving DecidableEq, Repr

/-- Result of `memset(&qds, 0x00, sizeof(struct dqblk))`. -/
def Dqblk.zero : Dqblk := ⟨0, 0, 0, 0, 0, 0, 0, 0⟩

/-- One value returned by `getmntent`: an entry (return 0) with its mount
path, or a read error (return > 0).  The end of the list is EOF (return -1). -/
inductive MntRet where
  | entry (mnt_mountp : String)
  | error (code : Nat)
  deriving DecidableEq, Repr

/-- System calls the program issues, in the order it issues them. -/
inductive Event where
  | resolvepath (path : String)
  | stat (path : String)
  | fopen (path : String)
  | getmntent
  | fclose
  | openFile (path : String) (rdwr : Bool)
  | ioctlGet (uid : Nat)
  | lseek
  | ioctlSet (uid : Nat) (rec : Dqblk)
  | close
  deriving DecidableEq, Repr

/-- Everything outside the program: the C library constant `ULONG_MAX`, the
password database, what `getopt` returns, the file system, the mount table
and the kernel side of the quota file. -/
structure Env where
  /-- The constant `ULONG_MAX` of the platform. -/
  ulmax : Nat
  /-- The uid `getpwnam(name)->pw_uid`, or `none` for a NULL result. -/
  getpwnam : String → Option Nat
  /-- Successive results of `getopt(argc, argv, "b:f:")` on the shifted
  argument vector: option character and `optarg`, up to the final -1. -/
  getopt : List String → List (Char × String)
  /-- The call `resolvepath`: the canonical path, or `none` on failure. -/
  resolvepath : String → Option String
  /-- The call `stat`: the pair `(st_dev, st_rdev)`, or `none` on failure. -/
  stat : String → Option (Nat × Nat)
  /-- The call `fopen(mnttab, "r")` and the `getmntent` results the stream then
  yields, or `none` when it cannot be opened. -/
  mnttab : String → Option (List MntRet)
  /-- Does `open(path, O_RDWR)` (`true`) or `open(path, O_RDONLY)` succeed? -/
  openOk : String → Bool → Bool
  /-- The `ioctl` with `Q_GETQUOTA`: the record read, or the `errno` of the
  failure (the buffer is then left as it was). -/
  getRes : Nat → Except Nat Dqblk
  /-- Does `lseek(fd, 0, SEEK_SET)` succeed? -/
  seekOk : Bool
  /-- The `ioctl` with `Q_SETQUOTA`: `none` on success, otherwise the `errno`. -/
  setRes : Nat → Dqblk → Option Nat

/-! ## `setquota` and `getquota` -/

/-- Lines 130-135 of `setquota`: copy the fields selected by `flags` from `qd` into `qds`. -/
def mergeLimits (flags : Nat) (qd qds : Dqblk) : Dqblk :=
  let qds := if flags &&& DISK_SOFT ≠ 0 then { qds with dqb_bsoftlimit := qd.dqb_bsoftlimit } else qds
  let qds := if flags &&& DISK_HARD ≠ 0 then { qds with dqb_bhardlimit := qd.dqb_bhardlimit } else qds
  let qds := if flags &&& FILES_SOFT ≠ 0 then { qds with dqb_fsoftlimit := qd.dqb_fsoftlimit } else qds
  let qds := if flags &&& FILES_HARD ≠ 0 then { qds with dqb_fhardlimit := qd.dqb_fhardlimit } else qds
  let qds := if flags &&& TIME_DISK ≠ 0 then { qds with dqb_btimelimit := qd.dqb_btimelimit } else qds
  let qds := if flags &&& TIME_FILES ≠ 0 then { qds with dqb_ftimelimit := qd.dqb_ftimelimit } else qds
  qds

/-- Lines 125-148 of `setquota`, entered with the file open and `qds` holding
the merge base; `t` is the trace so far. -/
def setquotaTail (env : Env) (uid : Nat) (qd : Dqblk) (flags : Nat) (qds : Dqblk)
    (t : List Event) : Int × List Event :=
  if env.seekOk = false then (-1, t ++ [Event.lseek])
  else
    let qds := mergeLimits flags qd qds
    match env.setRes uid qds with
    | some _ => (-1, t ++ [Event.lseek, Event.ioctlSet uid qds])
    | none => (0, t ++ [Event.lseek, Event.ioctlSet uid qds, Event.close])

/-- The function `setquota(uid, quotafile, qd, flags)`: return value and the
system calls issued. -/
def setquota (env : Env) (uid : Nat) (quotafile : String) (qd : Dqblk) (flags : Nat) :
    Int × List Event :=
  if flags = 0 then (0, [])
  else if env.openOk quotafile true = false then (-1, [Event.openFile quotafile true])
  else
    match env.getRes uid with
    | Except.error e =>
      if e ≠ ESRCH then (-1, [Event.openFile quotafile true, Event.ioctlGet uid])
      else setquotaTail env uid qd flags Dqblk.zero
        [Event.openFile quotafile true, Event.ioctlGet uid]
    | Except.ok r =>
      setquotaTail env uid qd flags r [Event.openFile quotafile true, Event.ioctlGet uid]

/-- The function `getquota(uid, quotafile, qd)`: return value, `*qd`
afterwards, and the system calls issued. -/
def getquota (env : Env) (uid : Nat) (quotafile : String) (qd : Dqblk) :
    Int × Dqblk × List Event :=
  if env.openOk quotafile false = false then (-1, qd, [Event.openFile quotafile false])
  else
    match env.getRes uid with
    | Except.error _ => (-1, qd, [Event.openFile quotafile false, Event.ioctlGet uid])
    | Except.ok r => (0, r, [Event.openFile quotafile false, Event.ioctlGet uid, Event.close])

/-! ## `get_mount_point` -/

/-- The `for (;;)` loop of `get_mount_point` over what `getmntent` yields;
`dev` is `sb.st_dev` of the target. -/
def scanMnttab (env : Env) (dev : Nat) : List MntRet → Option String × List Event
  | [] => (none, [Event.getmntent])
  | MntRet.error _ :: _ => (none, [Event.getmntent])
  | MntRet.entry mp :: rest =>
    match env.stat mp with
    | none => (none, [Event.getmntent, Event.stat mp])
    | some msb =>
      if msb.1 = dev ∧ msb.2 = 0 then
        (some mp, [Event.getmntent, Event.stat mp, Event.fclose])
      else
        ((scanMnttab env dev rest).1,
          Event.getmntent :: Event.stat mp :: (scanMnttab env dev rest).2)

/-- The function `get_mount_point(path, mnttab)`: the mount point (`none` for
NULL) and the system calls issued. -/
def get_mount_point (env : Env) (path mnttab : String) : Option String × List Event :=
  match env.resolvepath path with
  | none => (none, [Event.resolvepath path])
  | some buf =>
    match env.stat buf with
    | none => (none, [Event.resolvepath path, Event.stat buf])
    | some sb =>
      match env.mnttab mnttab with
      | none => (none, [Event.resolvepath path, Event.stat buf, Event.fopen mnttab])
      | some tbl =>
        ((scanMnttab env sb.1 tbl).1,
          [Event.resolvepath path, Event.stat buf, Event.fopen mnttab] ++
            (scanMnttab env sb.1 tbl).2)

/-! ## `main` -/

/-- What the report branch of `main` prints (lines 442-448). -/
structure Report where
  filesystem : String
  blocksUsage : Nat
  blocksSoft : Nat
  blocksHard : Nat
  blocksExceeded : Bool
  filesUsage : Nat
  filesSoft : Nat
  filesHard : Nat
  filesExceeded : Bool
  deriving DecidableEq, Repr

/-- The arguments of the two `printf` calls of the report branch. -/
def report (mpoint : String) (qd : Dqblk) : Report :=
  { filesystem := mpoint
    blocksUsage := qd.dqb_curblocks >>> 1
    blocksSoft := qd.dqb_bsoftlimit >>> 1
    blocksHard := qd.dqb_bhardlimit >>> 1
    blocksExceeded := decide (qd.dqb_btimelimit ≠ 0)
    filesUsage := qd.dqb_curfiles
    filesSoft := qd.dqb_fsoftlimit
    filesHard := qd.dqb_fhardlimit
    filesExceeded := decide (qd.dqb_ftimelimit ≠ 0) }

/-- Lines 382-388 of `main`: the uid from a numeric argument, else from
`getpwnam`; `none` when there is no such user. -/
def resolveUser (env : Env) (user : String) : Option Nat :=
  let r := strisnum env.ulmax user.toList 0
  if r.1 = 0 then env.getpwnam user else some r.2

/-- The `while (getopt ...)` loop of `main` over the results of `getopt`:
the limits and `setflags` at its end, or `none` when it exits with failure. -/
def optLoop (ulmax : Nat) : List (Char × String) → Dqblk → Nat → Option (Dqblk × Nat)
  | [], qd, setflags => some (qd, setflags)
  | (i, optarg) :: rest, qd, setflags =>
    if i = 'b' then
      let r := setnum ulmax optarg.toList qd.dqb_bsoftlimit qd.dqb_bhardlimit
      if r.ret < 0 then none
      else
        optLoop ulmax rest
          { qd with
            dqb_bsoftlimit := (r.a <<< 1) % 2 ^ 32
            dqb_bhardlimit := (r.b <<< 1) % 2 ^ 32 }
          (setflags ||| (DISK_HARD ||| DISK_SOFT))
    else if i = 'f' then
      let r := setnum ulmax optarg.toList qd.dqb_fsoftlimit qd.dqb_fhardlimit
      if r.ret < 0 then none
      else
        optLoop ulmax rest
          { qd with dqb_fsoftlimit := r.a, dqb_fhardlimit := r.b }
          (setflags ||| (FILES_HARD ||| FILES_SOFT))
    else none

/-- Outcome of a run of `main`: exit status, system calls issued, report printed. -/
structure MainResult where
  status : Nat
  trace : List Event
  out : Option Report
  deriving DecidableEq, Repr

/-- Lines 432-465 of `main`: from the mount point lookup to the exit. -/
def mainQuota (env : Env) (uid : Nat) (path : String) (qd : Dqblk) (setflags : Nat) :
    MainResult :=
  let m := get_mount_point env path DEFAULT_MNTTAB
  match m.1 with
  | none => ⟨EXIT_FAILURE, m.2, none⟩
  | some mpoint =>
    let qpath := mpoint ++ "/" ++ QUOTAFILE
    if setflags = 0 then
      let g := getquota env uid qpath qd
      if g.1 < 0 then ⟨EXIT_FAILURE, m.2 ++ g.2.2, none⟩
      else ⟨EXIT_SUCCESS, m.2 ++ g.2.2, some (report mpoint g.2.1)⟩
    else
      let s := setquota env uid qpath qd setflags
      if s.1 < 0 then ⟨EXIT_FAILURE, m.2 ++ s.2, none⟩
      else ⟨EXIT_SUCCESS, m.2 ++ s.2, none⟩

/-- The function `main(argc, argv)` with `argc = argv.length`. -/
def main (env : Env) (argv : List String) : MainResult :=
  match argv with
  | _ :: user :: path :: _ =>
    if path.toList.head? = some '-' then ⟨EXIT_FAILURE, [], none⟩
    else
      match resolveUser env user with
      | none => ⟨EXIT_FAILURE, [], none⟩
      | some uid =>
        if uid = 0 then ⟨EXIT_FAILURE, [], none⟩
        else
          match optLoop env.ulmax (env.getopt (argv.drop 2)) Dqblk.zero 0 with
          | none => ⟨EXIT_FAILURE, [], none⟩
          | some (qd, setflags) => mainQuota env uid path qd setflags
  | _ => ⟨EXIT_FAILURE, [], none⟩

/-- A simple `getopt` for examples: it pairs each `-b`/`-f` with the argument
after it and stops at anything else. -/
def demoGetopt : List String → List (Char × String)
  | o :: a :: rest =>
    if o = "-b" then ('b', a) :: demoGetopt rest
    else if o = "-f" then ('f', a) :: demoGetopt rest
    else []
  | _ => []

/-- An environment for examples: a 32-bit platform, `/` on device 1 and
`/home` on device 7, `alice` is uid 1000 and `admin` is uid 0, every system
call succeeds and the stored record of every uid is `stored`. -/
def demoEnv (stored : Dqblk) : Env :=
  { ulmax := 4294967295
    getpwnam := fun n => if n = "alice" then some 1000 else if n = "admin" then some 0 else none
    getopt := fun av => demoGetopt (av.drop 1)
    resolvepath := fun p => some p
    stat := fun p => if p = "/" then some (1, 0) else some (7, 0)
    mnttab := fun _ => some [MntRet.entry "/", MntRet.entry "/home"]
    openOk := fun _ _ => true
    getRes := fun _ => Except.ok stored
    seekOk := true
    setRes := fun _ _ => none }

/-- As `demoEnv`, with a mount table whose first entry `/stale` cannot be
stat'ed; `/home` comes second. -/
def staleEnv : Env :=
  { demoEnv Dqblk.zero with
    mnttab := fun _ => some [MntRet.entry "/stale", MntRet.entry "/home"]
    stat := fun p => if p = "/stale" then none else some (7, 0) }

/-- Entries of the mount table the loop of `get_mount_point` gets to compare:
those before the first `getmntent` error and before the first mount path
that fails to stat, each with its `(st_dev, st_rdev)`. -/
def scannedEntries (env : Env) : List MntRet → List (String × Nat × Nat)
  | [] => []
  | MntRet.error _ :: _ => []
  | MntRet.entry mp :: rest =>
    match env.stat mp with
    | none => []
    | some msb => (mp, msb.1, msb.2) :: scannedEntries env rest

/-- The condition of line 334 on a scanned entry: same device as the target, `st_rdev` zero. -/
def isTopMountOf (dev : Nat) (e : String × Nat × Nat) : Bool :=
  decide (e.2.1 = dev ∧ e.2.2 = 0)

/-! ## Lemmas -/

/-- Masking with a single bit is non-zero exactly when that bit is set. -/
theorem land_two_pow_ne_zero (n i : Nat) : (n &&& 2 ^ i ≠ 0) ↔ n.testBit i = true := by
  constructor
  · intro h
    by_contra hb
    apply h
    apply Nat.eq_of_testBit_eq
    intro j
    simp only [Nat.testBit_and, Nat.testBit_two_pow, Nat.zero_testBit]
    by_cases hij : i = j
    · subst hij; simp [hb]
    · simp [hij]
  · intro hb h
    have := congrArg (fun m => Nat.testBit m i) h
    simp [Nat.testBit_two_pow, hb] at this

/-- The merge of lines 130-135, field by field, in terms of the bits of `flags`. -/
theorem mergeLimits_fields (flags : Nat) (qd qds : Dqblk) :
    mergeLimits flags qd qds =
      { dqb_bsoftlimit := if flags.testBit 0 then qd.dqb_bsoftlimit else qds.dqb_bsoftlimit
        dqb_bhardlimit := if flags.testBit 1 then qd.dqb_bhardlimit else qds.dqb_bhardlimit
        dqb_fsoftlimit := if flags.testBit 2 then qd.dqb_fsoftlimit else qds.dqb_fsoftlimit
        dqb_fhardlimit := if flags.testBit 3 then qd.dqb_fhardlimit else qds.dqb_fhardlimit
        dqb_btimelimit := if flags.testBit 4 then qd.dqb_btimelimit else qds.dqb_btimelimit
        dqb_ftimelimit := if flags.testBit 5 then qd.dqb_ftimelimit else qds.dqb_ftimelimit
        dqb_curblocks := qds.dqb_curblocks
        dqb_curfiles := qds.dqb_curfiles } := by
  have h0 := land_two_pow_ne_zero flags 0
  have h1 := land_two_pow_ne_zero flags 1
  have h2 := land_two_pow_ne_zero flags 2
  have h3 := land_two_pow_ne_zero flags 3
  have h4 := land_two_pow_ne_zero flags 4
  have h5 := land_two_pow_ne_zero flags 5
  norm_num at h0 h1 h2 h3 h4 h5
  unfold mergeLimits DISK_SOFT DISK_HARD FILES_SOFT FILES_HARD TIME_DISK TIME_FILES
  by_cases b0 : flags.testBit 0 <;> by_cases b1 : flags.testBit 1 <;>
    by_cases b2 : flags.testBit 2 <;> by_cases b3 : flags.testBit 3 <;>
    by_cases b4 : flags.testBit 4 <;> by_cases b5 : flags.testBit 5 <;>
    simp_all

/-- What `setquota` does once the file is open and the merge base `base` is
known (read by the get, or all zero after ESRCH). -/
theorem setquota_with_base (env : Env) (uid : Nat) (quotafile : String) (qd base : Dqblk)
    (flags : Nat) (hflags : flags ≠ 0) (hopen : env.openOk quotafile true = true)
    (hget : env.getRes uid = Except.ok base ∨
      (env.getRes uid = Except.error ESRCH ∧ base = Dqblk.zero)) :
    setquota env uid quotafile qd flags =
      if env.seekOk = false then
        (-1, [Event.openFile quotafile true, Event.ioctlGet uid, Event.lseek])
      else if env.setRes uid (mergeLimits flags qd base) = none then
        (0, [Event.openFile quotafile true, Event.ioctlGet uid, Event.lseek,
          Event.ioctlSet uid (mergeLimits flags qd base), Event.close])
      else
        (-1, [Event.openFile quotafile true, Event.ioctlGet uid, Event.lseek,
          Event.ioctlSet uid (mergeLimits flags qd base)]) := by
  rcases hget with hget | ⟨hget, rfl⟩
  · cases hs : env.seekOk <;> cases hr : env.setRes uid (mergeLimits flags qd base) <;>
      simp [setquota, setquotaTail, hflags, hopen, hget, hs, hr]
  · cases hs : env.seekOk <;> cases hr : env.setRes uid (mergeLimits flags qd Dqblk.zero) <;>
      simp [setquota, setquotaTail, hflags, hopen, hget, hs, hr]

/-- The loop returns the first scanned entry that passes the test of line 334. -/
theorem scanMnttab_eq (env : Env) (dev : Nat) (tbl : List MntRet) :
    (scanMnttab env dev tbl).1 =
      ((scannedEntries env tbl).find? (isTopMountOf dev)).map (fun e => e.1) := by
  induction tbl with
  | nil => simp [scanMnttab, scannedEntries]
  | cons x rest ih =>
    cases x with
    | error c => simp [scanMnttab, scannedEntries]
    | entry mp =>
      cases hs : env.stat mp with
      | none => simp [scanMnttab, scannedEntries, hs]
      | some msb =>
        by_cases hc : msb.1 = dev ∧ msb.2 = 0
        · simp [scanMnttab, scannedEntries, hs, hc, isTopMountOf, List.find?]
        · simp [scanMnttab, scannedEntries, hs, hc, isTopMountOf, List.find?, ih]

/-- A scanned entry is an entry of the table, with the result of its stat. -/
theorem mem_scannedEntries (env : Env) (tbl : List MntRet) (e : String × Nat × Nat)
    (h : e ∈ scannedEntries env tbl) :
    MntRet.entry e.1 ∈ tbl ∧ env.stat e.1 = some e.2 := by
  induction tbl with
  | nil => simp [scannedEntries] at h
  | cons x rest ih =>
    cases x with
    | error c => simp [scannedEntries] at h
    | entry mp =>
      cases hs : env.stat mp with
      | none => simp [scannedEntries, hs] at h
      | some msb =>
        simp only [scannedEntries, hs, List.mem_cons] at h
        rcases h with h | h
        · subst h; simp [hs]
        · have := ih h
          exact ⟨List.mem_cons_of_mem _ this.1, this.2⟩

/-- When every `getmntent` and every stat succeeds, every entry is scanned. -/
theorem mem_scannedEntries_of_readable (env : Env) (tbl : List MntRet)
    (hall : ∀ x ∈ tbl, ∃ mp msb, x = MntRet.entry mp ∧ env.stat mp = some msb)
    (mp : String) (hmp : MntRet.entry mp ∈ tbl) :
    ∃ msb, env.stat mp = some msb ∧ (mp, msb) ∈ scannedEntries env tbl := by
  induction tbl with
  | nil => simp at hmp
  | cons x rest ih =>
    obtain ⟨mp0, msb0, hx, hs0⟩ := hall x (List.mem_cons_self _ _)
    subst hx
    simp only [List.mem_cons] at hmp
    have ih2 := ih (fun y hy => hall y (List.mem_cons_of_mem _ hy))
    rcases hmp with h | h
    · injection h with h
      subst h
      exact ⟨msb0, hs0, by simp [scannedEntries, hs0]⟩
    · obtain ⟨msb, h1, h2⟩ := ih2 h
      exact ⟨msb, h1, by simp [scannedEntries, hs0, h2]⟩


/-- A digit of some base has code at least 48 and a digit value below the base. -/
theorem digitIn_toNat (base : Nat) (c : Char) (h : digitIn base c = true) :
    48 ≤ c.toNat ∧ ∃ d, digitVal c = some d ∧ d < base := by
  unfold digitIn at h
  cases hd : digitVal c with
  | none => simp [hd] at h
  | some d =>
    simp [hd] at h
    refine ⟨?_, d, rfl, h⟩
    unfold digitVal at hd
    split at hd
    · omega
    · split at hd
      · omega
      · split at hd
        · omega
        · simp at hd

/-- A digit is not white space. -/
theorem digitIn_not_space (base : Nat) (c : Char) (h : digitIn base c = true) :
    isspace c = false := by
  have := (digitIn_toNat base c h).1
  simp [isspace]
  omega

/-- A digit differs from every character with code below 48. -/
theorem digitIn_ne (base : Nat) (c k : Char) (h : digitIn base c = true) (hk : k.toNat < 48) :
    c ≠ k := by
  intro e
  subst e
  have := (digitIn_toNat base c h).1
  omega

/-- An octal digit has code at most 55. -/
theorem digitIn_octal_toNat (c : Char) (h : digitIn 8 c = true) : c.toNat ≤ 55 := by
  obtain ⟨_, d, hd, hlt⟩ := digitIn_toNat 8 c h
  unfold digitVal at hd
  split at hd
  · simp at hd; omega
  · split at hd
    · simp at hd; omega
    · split at hd
      · simp at hd; omega
      · simp at hd

/-- Leading white space is skipped. -/
theorem skipSpace_append (ws s : List Char) (h : ∀ c ∈ ws, isspace c = true) :
    skipSpace (ws ++ s) = skipSpace s := by
  induction ws with
  | nil => rfl
  | cons c cs ih =>
    have hc := h c (List.mem_cons_self _ _)
    simp only [List.cons_append, skipSpace, hc, if_true]
    exact ih (fun x hx => h x (List.mem_cons_of_mem _ hx))

/-- Skipping stops at a character that is not white space. -/
theorem skipSpace_cons (c : Char) (s : List Char) (h : isspace c = false) :
    skipSpace (c :: s) = c :: s := by
  simp [skipSpace, h]

/-- A text made of digits of the base only is scanned to its end. -/
theorem scanDigits_all (base : Nat) (ds : List Char) (h : ∀ c ∈ ds, digitIn base c = true) :
    scanDigits base ds = (ds.map (fun c => (digitVal c).getD 0), []) := by
  induction ds with
  | nil => rfl
  | cons c cs ih =>
    obtain ⟨_, d, hd, hlt⟩ := digitIn_toNat base c (h c (List.mem_cons_self _ _))
    have := ih (fun x hx => h x (List.mem_cons_of_mem _ hx))
    simp [scanDigits, hd, hlt, this]

/-- A leading zero digit does not change the value. -/
theorem digitsValue_zero_cons (base : Nat) (vs : List Nat) :
    digitsValue base (0 :: vs) = digitsValue base vs := by
  simp [digitsValue]

/-- The conversion of a text that starts with a digit, once the base selection leaves a non-empty all-digit text whose value fits. -/
theorem strtoul_digits (ulmax base b : Nat) (c : Char) (t ds : List Char)
    (hc : digitIn 36 c = true) (hne : ds ≠ []) (hd : ∀ x ∈ ds, digitIn b x = true)
    (hpb : pickBase base (c :: t) = (b, ds)) (hv : litValue b ds ≤ ulmax) :
    strtoul ulmax (c :: t) base = (litValue b ds, []) := by
  have h1 : skipSpace (c :: t) = c :: t := skipSpace_cons c t (digitIn_not_space 36 c hc)
  have h2 : takeSign (c :: t) = (false, c :: t) := by
    have hm : c ≠ '-' := digitIn_ne 36 c '-' hc (by decide)
    have hp : c ≠ '+' := digitIn_ne 36 c '+' hc (by decide)
    simp [takeSign, hm, hp]
  have h3 : ds.map (fun c => (digitVal c).getD 0) ≠ [] := by
    simpa using hne
  have h4 : ¬ ulmax < digitsValue b (ds.map (fun c => (digitVal c).getD 0)) := by
    unfold litValue at hv
    omega
  simp only [strtoul, h1, h2, hpb, scanDigits_all b ds hd, h3, if_false, h4]
  simp [litValue]

/-- A digit of a base is a digit of every larger base. -/
theorem digitIn_mono (b1 b2 : Nat) (c : Char) (hb : b1 ≤ b2) (h : digitIn b1 c = true) :
    digitIn b2 c = true := by
  obtain ⟨_, d, hd, hlt⟩ := digitIn_toNat b1 c h
  simp [digitIn, hd]
  omega

/-- The result of `strisnum` once its two stages are known. -/
theorem strisnum_of_head (ulmax : Nat) (str rest : List Char) (base n val : Nat)
    (hp : strisnumHead str = (rest, base)) (hne : rest ≠ [])
    (hs : strtoul ulmax rest base = (n, [])) (hn : n < 2 ^ 32) :
    strisnum ulmax str val = (1, n) := by
  simp only [strisnum, hp, hne, if_false, hs, if_true, Nat.mod_eq_of_lt hn]

/-- Characters with different codes are different. -/
theorem char_ne_of_toNat (c k : Char) (h : c.toNat ≠ k.toNat) : c ≠ k := by
  intro e
  exact h (by rw [e])

/-- Decimal literals are accepted with their value. -/
theorem strisnum_decimal (ulmax val : Nat) (ws ds : List Char)
    (hws : ∀ c ∈ ws, isspace c = true) (hne : ds ≠ []) (hd : ∀ c ∈ ds, digitIn 10 c = true)
    (h0 : ds.head? ≠ some '0') (hv : litValue 10 ds ≤ ulmax) (hn : litValue 10 ds < 2 ^ 32) :
    strisnum ulmax (ws ++ ds) val = (1, litValue 10 ds) := by
  cases ds with
  | nil => exact absurd rfl hne
  | cons c t =>
    have hc := hd c (List.mem_cons_self _ _)
    have hc0 : c ≠ '0' := by simpa using h0
    have hsk : skipSpace (ws ++ c :: t) = c :: t := by
      rw [skipSpace_append ws _ hws, skipSpace_cons c t (digitIn_not_space 10 c hc)]
    have hp : strisnumHead (ws ++ c :: t) = (c :: t, 0) := by
      simp [strisnumHead, hsk, hc0]
    have hpb : pickBase 0 (c :: t) = (10, c :: t) := by
      have hx : startsHex (c :: t) = false := by
        cases t with
        | nil => simp [startsHex]
        | cons x t2 =>
          cases t2 with
          | nil => simp [startsHex]
          | cons h t3 => simp [startsHex, hc0]
      simp [pickBase, hx, hc0]
    exact strisnum_of_head ulmax _ (c :: t) 0 _ val hp (by simp)
      (strtoul_digits ulmax 0 10 c t (c :: t) (digitIn_mono 10 36 c (by decide) hc) (by simp)
        hd hpb hv) hn

/-- The character `0` is a digit of every base. -/
theorem digitIn_zero (base : Nat) (hb : 0 < base) : digitIn base '0' = true := by
  have : digitVal '0' = some 0 := by decide
  simp [digitIn, this, hb]

/-- The character `0` is not white space. -/
theorem not_space_zero : isspace '0' = false := by decide

/-- Octal literals are accepted with their value. -/
theorem strisnum_octal (ulmax val : Nat) (ws ds : List Char)
    (hws : ∀ c ∈ ws, isspace c = true) (hd : ∀ c ∈ ds, digitIn 8 c = true)
    (hv : litValue 8 ds ≤ ulmax) (hn : litValue 8 ds < 2 ^ 32) :
    strisnum ulmax (ws ++ '0' :: ds) val = (1, litValue 8 ds) := by
  have hsk : skipSpace (ws ++ '0' :: ds) = '0' :: ds := by
    rw [skipSpace_append ws _ hws, skipSpace_cons '0' ds not_space_zero]
  have hhead : ∀ k : Char, 55 < k.toNat → ds.take 1 ≠ [k] := by
    intro k hk
    cases ds with
    | nil => simp
    | cons d t =>
      have := digitIn_octal_toNat d (hd d (List.mem_cons_self _ _))
      simp only [List.take_succ_cons, List.take_zero, ne_eq, List.cons.injEq, and_true]
      exact char_ne_of_toNat d k (by omega)
  have hp : strisnumHead (ws ++ '0' :: ds) = ('0' :: ds, 0) := by
    have hb := hhead 'b' (by decide)
    have hB := hhead 'B' (by decide)
    simp [strisnumHead, hsk, hb, hB]
  have hpb : pickBase 0 ('0' :: ds) = (8, '0' :: ds) := by
    have hx : startsHex ('0' :: ds) = false := by
      cases ds with
      | nil => simp [startsHex]
      | cons x t2 =>
        cases t2 with
        | nil => simp [startsHex]
        | cons h t3 =>
          have := digitIn_octal_toNat x (hd x (List.mem_cons_self _ _))
          have h1 : x ≠ 'x' := char_ne_of_toNat x 'x' (by
            have : ('x' : Char).toNat = 120 := by decide
            omega)
          have h2 : x ≠ 'X' := char_ne_of_toNat x 'X' (by
            have : ('X' : Char).toNat = 88 := by decide
            omega)
          simp [startsHex, h1, h2]
    simp [pickBase, hx]
  have hall : ∀ c ∈ '0' :: ds, digitIn 8 c = true := by
    intro c hc
    rcases List.mem_cons.1 hc with h | h
    · rw [h]; exact digitIn_zero 8 (by decide)
    · exact hd c h
  have hval : litValue 8 ('0' :: ds) = litValue 8 ds := by
    have : digitVal '0' = some 0 := by decide
    simp [litValue, this, digitsValue_zero_cons]
  have hs := strtoul_digits ulmax 0 8 '0' ds ('0' :: ds) (digitIn_zero 36 (by decide)) (by simp)
    hall hpb (by rw [hval]; exact hv)
  rw [hval] at hs
  exact strisnum_of_head ulmax _ ('0' :: ds) 0 _ val hp (by simp) hs hn

/-- Hexadecimal literals are accepted with their value. -/
theorem strisnum_hex (ulmax val : Nat) (ws ds : List Char) (x : Char)
    (hws : ∀ c ∈ ws, isspace c = true) (hx : x = 'x' ∨ x = 'X') (hne : ds ≠ [])
    (hd : ∀ c ∈ ds, digitIn 16 c = true)
    (hv : litValue 16 ds ≤ ulmax) (hn : litValue 16 ds < 2 ^ 32) :
    strisnum ulmax (ws ++ '0' :: x :: ds) val = (1, litValue 16 ds) := by
  have hsk : skipSpace (ws ++ '0' :: x :: ds) = '0' :: x :: ds := by
    rw [skipSpace_append ws _ hws, skipSpace_cons '0' _ not_space_zero]
  have hxb : x ≠ 'b' ∧ x ≠ 'B' := by
    rcases hx with h | h <;> subst h <;> decide
  have hp : strisnumHead (ws ++ '0' :: x :: ds) = ('0' :: x :: ds, 0) := by
    simp [strisnumHead, hsk, hxb.1, hxb.2]
  cases ds with
  | nil => exact absurd rfl hne
  | cons h t =>
    have hh := hd h (List.mem_cons_self _ _)
    have hpb : pickBase 0 ('0' :: x :: h :: t) = (16, h :: t) := by
      obtain ⟨_, d, hdv, hlt⟩ := digitIn_toNat 16 h hh
      have hs : startsHex ('0' :: x :: h :: t) = true := by
        rcases hx with e | e <;> subst e <;> simp [startsHex, hdv, hlt]
      simp [pickBase, hs]
    exact strisnum_of_head ulmax _ ('0' :: x :: h :: t) 0 _ val hp (by simp)
      (strtoul_digits ulmax 0 16 '0' (x :: h :: t) (h :: t) (digitIn_zero 36 (by decide))
        (by simp) hd hpb hv) hn

/-- Binary literals are accepted with their value. -/
theorem strisnum_binary (ulmax val : Nat) (ws ds : List Char) (b : Char)
    (hws : ∀ c ∈ ws, isspace c = true) (hb : b = 'b' ∨ b = 'B') (hne : ds ≠ [])
    (hd : ∀ c ∈ ds, digitIn 2 c = true)
    (hv : litValue 2 ds ≤ ulmax) (hn : litValue 2 ds < 2 ^ 32) :
    strisnum ulmax (ws ++ '0' :: b :: ds) val = (1, litValue 2 ds) := by
  have hsk : skipSpace (ws ++ '0' :: b :: ds) = '0' :: b :: ds := by
    rw [skipSpace_append ws _ hws, skipSpace_cons '0' _ not_space_zero]
  have hp : strisnumHead (ws ++ '0' :: b :: ds) = (ds, 2) := by
    rcases hb with e | e <;> subst e <;> simp [strisnumHead, hsk]
  cases ds with
  | nil => exact absurd rfl hne
  | cons c t =>
    have hc := hd c (List.mem_cons_self _ _)
    have hpb : pickBase 2 (c :: t) = (2, c :: t) := by
      simp [pickBase]
    exact strisnum_of_head ulmax _ (c :: t) 2 _ val hp (by simp)
      (strtoul_digits ulmax 2 2 c t (c :: t) (digitIn_mono 2 36 c (by decide) hc)
        (by simp) hd hpb hv) hn


/-- Without the delimiter there is no split. -/
theorem splitFirst_none (c : Char) (s : List Char) (h : c ∉ s) : splitFirst c s = none := by
  induction s with
  | nil => rfl
  | cons x xs ih =>
    have hx : x ≠ c := fun e => h (by simp [e])
    have hxs : c ∉ xs := fun e => h (List.mem_cons_of_mem _ e)
    simp [splitFirst, hx, ih hxs]

/-- The split happens at the first delimiter. -/
theorem splitFirst_append (c : Char) (l r : List Char) (h : c ∉ l) :
    splitFirst c (l ++ c :: r) = some (l, r) := by
  induction l with
  | nil => simp [splitFirst]
  | cons x xs ih =>
    have hx : x ≠ c := fun e => h (by simp [e])
    have hxs : c ∉ xs := fun e => h (List.mem_cons_of_mem _ e)
    simp [splitFirst, hx, ih hxs]

/-- The return value of `strisnum` is 0 or 1. -/
theorem strisnum_ret (ulmax : Nat) (str : List Char) (val : Nat) :
    (strisnum ulmax str val).1 = 0 ∨ (strisnum ulmax str val).1 = 1 := by
  unfold strisnum
  by_cases h0 : (strisnumHead str).1 = []
  · simp [h0]
  · by_cases h : (strtoul ulmax (strisnumHead str).1 (strisnumHead str).2).2 = [] <;>
      simp [h0, h]


/-- Skipping white space leaves a suffix. -/
theorem skipSpace_suffix (s : List Char) : skipSpace s <:+ s := by
  induction s with
  | nil => exact List.suffix_refl _
  | cons c cs ih =>
    unfold skipSpace
    split
    · exact ih.trans (List.suffix_cons _ _)
    · exact List.suffix_refl _

/-- Taking the sign leaves a suffix. -/
theorem takeSign_suffix (s : List Char) : (takeSign s).2 <:+ s := by
  cases s with
  | nil => exact List.suffix_refl _
  | cons c cs =>
    by_cases h1 : c = '-'
    · simp [takeSign, h1]
    · by_cases h2 : c = '+'
      · simp [takeSign, h2]
      · simp [takeSign, h1, h2]

/-- Base selection leaves a suffix. -/
theorem pickBase_suffix (base : Nat) (s : List Char) : (pickBase base s).2 <:+ s := by
  unfold pickBase
  split
  · exact List.drop_suffix _ _
  · split
    · split <;> exact List.suffix_refl _
    · exact List.suffix_refl _

/-- Scanning digits leaves a suffix. -/
theorem scanDigits_suffix (base : Nat) (s : List Char) : (scanDigits base s).2 <:+ s := by
  induction s with
  | nil => exact List.suffix_refl _
  | cons c cs ih =>
    unfold scanDigits
    split
    · split
      · exact ih.trans (List.suffix_cons _ _)
      · exact List.suffix_refl _
    · exact List.suffix_refl _

/-- The text `endptr` points to is a suffix of the text converted. -/
theorem strtoul_suffix (ulmax : Nat) (nptr : List Char) (base : Nat) :
    (strtoul ulmax nptr base).2 <:+ nptr := by
  have h : (scanDigits (pickBase base (takeSign (skipSpace nptr)).2).1
      (pickBase base (takeSign (skipSpace nptr)).2).2).2 <:+ nptr :=
    (((scanDigits_suffix _ _).trans (pickBase_suffix _ _)).trans (takeSign_suffix _)).trans
      (skipSpace_suffix _)
  unfold strtoul
  simp only
  split
  · exact List.suffix_refl _
  · split
    · exact h
    · split <;> exact h

/-- Where the conversion stops does not depend on `ULONG_MAX`. -/
theorem strtoul_rest_indep (u1 u2 : Nat) (nptr : List Char) (base : Nat) :
    (strtoul u1 nptr base).2 = (strtoul u2 nptr base).2 := by
  unfold strtoul
  simp only
  split
  · rfl
  · split <;> split <;> (try split) <;> rfl

/-- The return value of `strisnum` depends on the text only. -/
theorem strisnum_ret_indep (u1 u2 : Nat) (str : List Char) (v1 v2 : Nat) :
    (strisnum u1 str v1).1 = (strisnum u2 str v2).1 := by
  unfold strisnum
  simp only
  split
  · rfl
  · simp only [strtoul_rest_indep u1 u2]


/-- An accepted text is stored whatever `*val` held before. -/
theorem strisnum_indep (ulmax : Nat) (str : List Char) (v1 v2 : Nat)
    (h : (strisnum ulmax str v1).1 ≠ 0) : strisnum ulmax str v2 = strisnum ulmax str v1 := by
  unfold strisnum at h ⊢
  by_cases h0 : (strisnumHead str).1 = []
  · simp [h0] at h
  · simp [h0]

/-- A successful `setnum` does not depend on what `*a` and `*b` held before. -/
theorem setnum_indep (ulmax : Nat) (str : List Char) (a0 b0 a1 b1 : Nat)
    (h : (setnum ulmax str a0 b0).ret = 0) :
    setnum ulmax str a1 b1 = setnum ulmax str a0 b0 := by
  unfold setnum at h ⊢
  cases hs : splitFirst ':' str with
  | none => simp [hs] at h
  | some p =>
    obtain ⟨l, pt⟩ := p
    simp only [hs] at h ⊢
    by_cases ha : (strisnum ulmax l a0).1 = 0
    · simp [ha] at h
    · by_cases hb : (strisnum ulmax pt b0).1 = 0
      · simp [ha, hb] at h
      · have ha1 := strisnum_indep ulmax l a0 a1 ha
        have hb1 := strisnum_indep ulmax pt b0 b1 hb
        simp only [ha1, hb1, ha, hb, if_false]

/-- One `-b` option that parses: both block limits are doubled in 32 bits and
the two block flags are set. -/
theorem optLoop_b (ulmax : Nat) (arg : String) (rest : List (Char × String)) (qd : Dqblk)
    (fl : Nat) (h : (setnum ulmax arg.toList 0 0).ret = 0) :
    optLoop ulmax (('b', arg) :: rest) qd fl =
      optLoop ulmax rest
        { qd with
          dqb_bsoftlimit := ((setnum ulmax arg.toList 0 0).a <<< 1) % 2 ^ 32
          dqb_bhardlimit := ((setnum ulmax arg.toList 0 0).b <<< 1) % 2 ^ 32 }
        (fl ||| (DISK_HARD ||| DISK_SOFT)) := by
  have e := setnum_indep ulmax arg.toList 0 0 qd.dqb_bsoftlimit qd.dqb_bhardlimit h
  simp only [optLoop, if_true, e, h]
  simp

/-- One `-f` option that parses: the file limits are stored as parsed, the two
file flags are set, and the block limits are left alone. -/
theorem optLoop_f (ulmax : Nat) (arg : String) (rest : List (Char × String)) (qd : Dqblk)
    (fl : Nat) (h : (setnum ulmax arg.toList 0 0).ret = 0) :
    optLoop ulmax (('f', arg) :: rest) qd fl =
      optLoop ulmax rest
        { qd with
          dqb_fsoftlimit := (setnum ulmax arg.toList 0 0).a
          dqb_fhardlimit := (setnum ulmax arg.toList 0 0).b }
        (fl ||| (FILES_HARD ||| FILES_SOFT)) := by
  have e := setnum_indep ulmax arg.toList 0 0 qd.dqb_fsoftlimit qd.dqb_fhardlimit h
  have hne : ¬ ('f' : Char) = 'b' := by decide
  simp only [optLoop, hne, if_false, if_true, e, h]
  simp

/-- Options that all parse take the loop to the options behind them. -/
theorem optLoop_append (ulmax : Nat) (pre rest : List (Char × String))
    (hpre : ∀ o ∈ pre, (o.1 = 'b' ∨ o.1 = 'f') ∧ (setnum ulmax o.2.toList 0 0).ret = 0)
    (qd : Dqblk) (fl : Nat) :
    ∃ qd1 fl1, optLoop ulmax (pre ++ rest) qd fl = optLoop ulmax rest qd1 fl1 := by
  induction pre generalizing qd fl with
  | nil => exact ⟨qd, fl, rfl⟩
  | cons o os ih =>
    obtain ⟨c, arg⟩ := o
    have ho := hpre (c, arg) (List.mem_cons_self _ _)
    have hos := fun x hx => hpre x (List.mem_cons_of_mem _ hx)
    rcases ho.1 with hc | hc
    · simp only at hc
      subst hc
      rw [List.cons_append, optLoop_b ulmax arg _ qd fl ho.2]
      exact ih hos _ _
    · simp only at hc
      subst hc
      rw [List.cons_append, optLoop_f ulmax arg _ qd fl ho.2]
      exact ih hos _ _

/-- A run of `-f` options that all parse ends the loop normally, keeps the
block limits and keeps every flag already set. -/
theorem optLoop_files_only (ulmax : Nat) (post : List (Char × String))
    (hpost : ∀ o ∈ post, o.1 = 'f' ∧ (setnum ulmax o.2.toList 0 0).ret = 0)
    (qd : Dqblk) (fl : Nat) :
    ∃ qd1 fl1, optLoop ulmax post qd fl = some (qd1, fl1) ∧
      qd1.dqb_bsoftlimit = qd.dqb_bsoftlimit ∧ qd1.dqb_bhardlimit = qd.dqb_bhardlimit ∧
      ∀ i, fl.testBit i = true → fl1.testBit i = true := by
  induction post generalizing qd fl with
  | nil => exact ⟨qd, fl, rfl, rfl, rfl, fun _ h => h⟩
  | cons o os ih =>
    obtain ⟨c, arg⟩ := o
    have ho := hpost (c, arg) (List.mem_cons_self _ _)
    have hos := fun x hx => hpost x (List.mem_cons_of_mem _ hx)
    have hc : c = 'f' := ho.1
    subst hc
    rw [optLoop_f ulmax arg _ qd fl ho.2]
    obtain ⟨qd1, fl1, h1, h2, h3, h4⟩ := ih hos
      { qd with
        dqb_fsoftlimit := (setnum ulmax arg.toList 0 0).a
        dqb_fhardlimit := (setnum ulmax arg.toList 0 0).b }
      (fl ||| (FILES_HARD ||| FILES_SOFT))
    refine ⟨qd1, fl1, h1, h2, h3, ?_⟩
    intro i hi
    apply h4
    rw [Nat.testBit_or, hi, Bool.true_or]

/-- The option loop with a last `-b` option: it ends normally with both block
flags set and the block limits of that option doubled in 32 bits. -/
theorem optLoop_last_b (ulmax : Nat) (pre post : List (Char × String)) (arg : String)
    (k1 k2 : Nat)
    (hpre : ∀ o ∈ pre, (o.1 = 'b' ∨ o.1 = 'f') ∧ (setnum ulmax o.2.toList 0 0).ret = 0)
    (hpost : ∀ o ∈ post, o.1 = 'f' ∧ (setnum ulmax o.2.toList 0 0).ret = 0)
    (hnum : setnum ulmax arg.toList 0 0 = ⟨0, k1, k2, none⟩) (qd : Dqblk) (fl : Nat) :
    ∃ qd1 fl1, optLoop ulmax (pre ++ ('b', arg) :: post) qd fl = some (qd1, fl1) ∧
      qd1.dqb_bsoftlimit = (2 * k1) % 2 ^ 32 ∧ qd1.dqb_bhardlimit = (2 * k2) % 2 ^ 32 ∧
      fl1.testBit 0 = true ∧ fl1.testBit 1 = true := by
  obtain ⟨qa, fa, ha⟩ := optLoop_append ulmax pre (('b', arg) :: post) hpre qd fl
  have hret : (setnum ulmax arg.toList 0 0).ret = 0 := by rw [hnum]
  rw [ha, optLoop_b ulmax arg post qa fa hret]
  obtain ⟨qd1, fl1, h1, h2, h3, h4⟩ := optLoop_files_only ulmax post hpost
    { qa with
      dqb_bsoftlimit := ((setnum ulmax arg.toList 0 0).a <<< 1) % 2 ^ 32
      dqb_bhardlimit := ((setnum ulmax arg.toList 0 0).b <<< 1) % 2 ^ 32 }
    (fa ||| (DISK_HARD ||| DISK_SOFT))
  refine ⟨qd1, fl1, h1, ?_, ?_, ?_, ?_⟩
  · rw [h2, hnum]
    simp only [Nat.shiftLeft_eq]
    rw [Nat.mul_comm]
  · rw [h3, hnum]
    simp only [Nat.shiftLeft_eq]
    rw [Nat.mul_comm]
  · apply h4
    have hb : (DISK_HARD ||| DISK_SOFT).testBit 0 = true := by decide
    rw [Nat.testBit_or, hb, Bool.or_true]
  · apply h4
    have hb : (DISK_HARD ||| DISK_SOFT).testBit 1 = true := by decide
    rw [Nat.testBit_or, hb, Bool.or_true]

/-- The mount table loop issues no quota operation. -/
theorem ioctlSet_not_mem_scanMnttab (env : Env) (dev : Nat) (tbl : List MntRet) (u : Nat)
    (r : Dqblk) : Event.ioctlSet u r ∉ (scanMnttab env dev tbl).2 := by
  induction tbl with
  | nil => simp [scanMnttab]
  | cons x rest ih =>
    cases x with
    | error c => simp [scanMnttab]
    | entry mp =>
      cases hs : env.stat mp with
      | none => simp [scanMnttab, hs]
      | some msb =>
        by_cases hc : msb.1 = dev ∧ msb.2 = 0
        · simp [scanMnttab, hs, hc]
        · simp [scanMnttab, hs, hc, ih]

/-- The mount point lookup issues no quota operation. -/
theorem ioctlSet_not_mem_get_mount_point (env : Env) (path mnttab : String) (u : Nat)
    (r : Dqblk) : Event.ioctlSet u r ∉ (get_mount_point env path mnttab).2 := by
  cases h1 : env.resolvepath path with
  | none => simp [get_mount_point, h1]
  | some buf =>
    cases h2 : env.stat buf with
    | none => simp [get_mount_point, h1, h2]
    | some sb =>
      cases h3 : env.mnttab mnttab with
      | none => simp [get_mount_point, h1, h2, h3]
      | some tbl => simp [get_mount_point, h1, h2, h3, ioctlSet_not_mem_scanMnttab]

/-- Every record `setquota` hands to the set operation is the merge of the new
limits into some base record. -/
theorem mem_setquota_trace (env : Env) (uid : Nat) (quotafile : String) (qd : Dqblk)
    (flags u : Nat) (r : Dqblk)
    (h : Event.ioctlSet u r ∈ (setquota env uid quotafile qd flags).2) :
    ∃ base, r = mergeLimits flags qd base := by
  by_cases hf : flags = 0
  · simp [setquota, hf] at h
  · cases ho : env.openOk quotafile true
    · simp [setquota, hf, ho] at h
    · have key : ∀ base, Event.ioctlSet u r ∈ (setquotaTail env uid qd flags base
          [Event.openFile quotafile true, Event.ioctlGet uid]).2 →
          ∃ base, r = mergeLimits flags qd base := by
        intro base hb
        refine ⟨base, ?_⟩
        unfold setquotaTail at hb
        cases hs : env.seekOk
        · simp [hs] at hb
        · cases hr : env.setRes uid (mergeLimits flags qd base) <;>
            simp [hs, hr] at hb <;> exact hb.2
      cases hg : env.getRes uid with
      | error e =>
        by_cases he : e = ESRCH
        · simp only [setquota, hf, ho, hg, he, if_false, ne_eq, not_true_eq_false] at h
          exact key _ h
        · simp [setquota, hf, ho, hg, he] at h
      | ok base =>
        simp only [setquota, hf, ho, hg, if_false] at h
        exact key _ h

/-! ## Theorems -/

/-- C9: with an empty mask (`flags == 0`) `setquota` returns 0 and issues no
system call at all: no open, get, seek or set. -/
theorem setquota_empty_mask_noop (env : Env) (uid : Nat) (quotafile : String) (qd : Dqblk) :
    setquota env uid quotafile qd 0 = (0, []) := by
  simp [setquota]

/-- C1: with a non-empty mask and an existing record read by the get, the
record handed to the set operation takes each of the six maskable fields from
the new limits when its flag is set and from the existing record otherwise,
and keeps both usage fields of the existing record; the set is issued once
the file opens and the seek succeeds.  With the mask of the two block flags
the file limits of the existing record are handed on unchanged. -/
theorem setquota_merges_masked_fields (env : Env) (uid : Nat) (quotafile : String)
    (qd existing : Dqblk) (flags : Nat) (hflags : flags ≠ 0)
    (hget : env.getRes uid = Except.ok existing) :
    (∀ u r, Event.ioctlSet u r ∈ (setquota env uid quotafile qd flags).2 →
      u = uid ∧
      r.dqb_bsoftlimit = (if flags.testBit 0 then qd.dqb_bsoftlimit else existing.dqb_bsoftlimit) ∧
      r.dqb_bhardlimit = (if flags.testBit 1 then qd.dqb_bhardlimit else existing.dqb_bhardlimit) ∧
      r.dqb_fsoftlimit = (if flags.testBit 2 then qd.dqb_fsoftlimit else existing.dqb_fsoftlimit) ∧
      r.dqb_fhardlimit = (if flags.testBit 3 then qd.dqb_fhardlimit else existing.dqb_fhardlimit) ∧
      r.dqb_btimelimit = (if flags.testBit 4 then qd.dqb_btimelimit else existing.dqb_btimelimit) ∧
      r.dqb_ftimelimit = (if flags.testBit 5 then qd.dqb_ftimelimit else existing.dqb_ftimelimit) ∧
      r.dqb_curblocks = existing.dqb_curblocks ∧
      r.dqb_curfiles = existing.dqb_curfiles ∧
      (flags = DISK_SOFT ||| DISK_HARD →
        r.dqb_fsoftlimit = existing.dqb_fsoftlimit ∧ r.dqb_fhardlimit = existing.dqb_fhardlimit ∧
        r.dqb_bsoftlimit = qd.dqb_bsoftlimit ∧ r.dqb_bhardlimit = qd.dqb_bhardlimit)) ∧
    (env.openOk quotafile true = true → env.seekOk = true →
      ∃ r, Event.ioctlSet uid r ∈ (setquota env uid quotafile qd flags).2) := by
  have key : ∀ u r, Event.ioctlSet u r ∈ (setquota env uid quotafile qd flags).2 →
      u = uid ∧ r = mergeLimits flags qd existing := by
    intro u r h
    cases ho : env.openOk quotafile true
    · simp [setquota, hflags, ho] at h
    · rw [setquota_with_base env uid quotafile qd existing flags hflags ho (Or.inl hget)] at h
      split at h
      · simp at h
      · split at h <;> simpa using h
  constructor
  · intro u r h
    obtain ⟨hu, hr⟩ := key u r h
    rw [mergeLimits_fields] at hr
    subst hr
    refine ⟨hu, rfl, rfl, rfl, rfl, rfl, rfl, rfl, rfl, ?_⟩
    intro hf
    subst hf
    simp [DISK_SOFT, DISK_HARD, Nat.testBit]
  · intro ho hs
    rw [setquota_with_base env uid quotafile qd existing flags hflags ho (Or.inl hget)]
    refine ⟨mergeLimits flags qd existing, ?_⟩
    by_cases hr : env.setRes uid (mergeLimits flags qd existing) = none <;> simp [hs, hr]

/-- C1, at a concrete input: mask of the two block flags, existing file limits 5 and 10. -/
theorem setquota_merges_masked_fields_witness :
    (3 : Nat) ≠ 0 ∧
    (demoEnv ⟨40, 30, 12, 10, 5, 2, 0, 0⟩).getRes 1000 = Except.ok ⟨40, 30, 12, 10, 5, 2, 0, 0⟩ ∧
    ∀ u r, Event.ioctlSet u r ∈
        (setquota (demoEnv ⟨40, 30, 12, 10, 5, 2, 0, 0⟩) 1000 "/home/quotas"
          ⟨200, 100, 0, 0, 0, 0, 0, 0⟩ 3).2 →
      r.dqb_fsoftlimit = 5 ∧ r.dqb_fhardlimit = 10 ∧
      r.dqb_bsoftlimit = 100 ∧ r.dqb_bhardlimit = 200 :=
  ⟨by decide, rfl, fun u r h =>
    ((setquota_merges_masked_fields (demoEnv ⟨40, 30, 12, 10, 5, 2, 0, 0⟩) 1000 "/home/quotas"
      ⟨200, 100, 0, 0, 0, 0, 0, 0⟩ ⟨40, 30, 12, 10, 5, 2, 0, 0⟩ 3 (by decide) rfl).1
        u r h).2.2.2.2.2.2.2.2.2 rfl⟩

/-- C2: at an input where the get operation fails, `getquota` returns -1 after
the open and the get without closing the file; `setquota` does the same when
its get fails with an error other than ESRCH, when the seek fails and when the
set fails.  Only the successful paths close. -/
theorem quota_file_left_open_on_failure :
    getquota { demoEnv Dqblk.zero with getRes := fun _ => Except.error ESRCH } 1000
        "/home/quotas" Dqblk.zero =
      (-1, Dqblk.zero, [Event.openFile "/home/quotas" false, Event.ioctlGet 1000]) ∧
    setquota { demoEnv Dqblk.zero with getRes := fun _ => Except.error 1 } 1000
        "/home/quotas" Dqblk.zero 3 =
      (-1, [Event.openFile "/home/quotas" true, Event.ioctlGet 1000]) ∧
    setquota { demoEnv Dqblk.zero with seekOk := false } 1000 "/home/quotas" Dqblk.zero 3 =
      (-1, [Event.openFile "/home/quotas" true, Event.ioctlGet 1000, Event.lseek]) ∧
    setquota { demoEnv Dqblk.zero with setRes := fun _ _ => some 1 } 1000
        "/home/quotas" Dqblk.zero 3 =
      (-1, [Event.openFile "/home/quotas" true, Event.ioctlGet 1000, Event.lseek,
        Event.ioctlSet 1000 Dqblk.zero]) ∧
    getquota (demoEnv Dqblk.zero) 1000 "/home/quotas" Dqblk.zero =
      (0, Dqblk.zero,
        [Event.openFile "/home/quotas" false, Event.ioctlGet 1000, Event.close]) := by
  decide

/-- C3, as stated, fails: the get fails with ESRCH and the seek that follows
fails, so `setquota` returns -1 and no set operation is issued. -/
theorem setquota_esrch_then_seek_failure :
    setquota { demoEnv Dqblk.zero with getRes := fun _ => Except.error ESRCH, seekOk := false }
        1000 "/home/quotas" ⟨200, 100, 0, 0, 0, 0, 0, 0⟩ 3 =
      (-1, [Event.openFile "/home/quotas" true, Event.ioctlGet 1000, Event.lseek]) := by
  decide

/-- C3, amended: with a non-empty mask and the file open, a get that fails
with ESRCH is handled exactly as a get that read the all-zero record, and
when the seek succeeds the set operation is issued with the new limits merged
into the all-zero record; a get that fails with any other error makes
`setquota` return -1 after the open and the get, with no seek and no set. -/
theorem setquota_get_failure (env : Env) (uid : Nat) (quotafile : String) (qd : Dqblk)
    (flags e : Nat) (hflags : flags ≠ 0) (hopen : env.openOk quotafile true = true)
    (hget : env.getRes uid = Except.error e) :
    (e = ESRCH →
      setquota env uid quotafile qd flags =
        setquota { env with getRes := fun _ => Except.ok Dqblk.zero } uid quotafile qd flags ∧
      (env.seekOk = true →
        (setquota env uid quotafile qd flags).2 =
          [Event.openFile quotafile true, Event.ioctlGet uid, Event.lseek,
            Event.ioctlSet uid (mergeLimits flags qd Dqblk.zero)] ++
            (if env.setRes uid (mergeLimits flags qd Dqblk.zero) = none then [Event.close]
             else []) ∧
        (setquota env uid quotafile qd flags).1 =
          (if env.setRes uid (mergeLimits flags qd Dqblk.zero) = none then 0 else -1))) ∧
    (e ≠ ESRCH →
      setquota env uid quotafile qd flags =
        (-1, [Event.openFile quotafile true, Event.ioctlGet uid])) := by
  constructor
  · intro he
    subst he
    have h1 := setquota_with_base env uid quotafile qd Dqblk.zero flags hflags hopen
      (Or.inr ⟨hget, rfl⟩)
    have h2 := setquota_with_base { env with getRes := fun _ => Except.ok Dqblk.zero } uid
      quotafile qd Dqblk.zero flags hflags hopen (Or.inl rfl)
    refine ⟨by rw [h1, h2], ?_⟩
    intro hs
    rw [h1]
    by_cases hr : env.setRes uid (mergeLimits flags qd Dqblk.zero) = none <;> simp [hs, hr]
  · intro he
    simp [setquota, hflags, hopen, hget, he]

/-- C3 amended, at a concrete input: uid 1000 has no record yet, block limits are set. -/
theorem setquota_get_failure_witness :
    (3 : Nat) ≠ 0 ∧
    (setquota { demoEnv Dqblk.zero with getRes := fun _ => Except.error ESRCH } 1000
        "/home/quotas" ⟨200, 100, 0, 0, 0, 0, 0, 0⟩ 3).2 =
      [Event.openFile "/home/quotas" true, Event.ioctlGet 1000, Event.lseek,
        Event.ioctlSet 1000 ⟨200, 100, 0, 0, 0, 0, 0, 0⟩, Event.close] :=
  ⟨by decide,
    (((setquota_get_failure
      { demoEnv Dqblk.zero with getRes := fun _ => Except.error ESRCH } 1000 "/home/quotas"
      ⟨200, 100, 0, 0, 0, 0, 0, 0⟩ 3 ESRCH (by decide) rfl rfl).1 rfl).2 rfl).1⟩

/-- C10: when the user argument resolves to uid 0, either because `strisnum`
accepts it with value 0 (in whatever base) or because it is not numeric and
`getpwnam` gives uid 0, `main` exits with failure before any system call of
`get_mount_point`, `getquota` or `setquota`: the trace is empty, so neither
the mount table nor the quota file is opened. -/
theorem main_refuses_root (env : Env) (prog user : String) (rest : List String)
    (h : ((strisnum env.ulmax user.toList 0).1 ≠ 0 ∧ (strisnum env.ulmax user.toList 0).2 = 0) ∨
      ((strisnum env.ulmax user.toList 0).1 = 0 ∧ env.getpwnam user = some 0)) :
    main env (prog :: user :: rest) = ⟨EXIT_FAILURE, [], none⟩ := by
  have hu : resolveUser env user = some 0 := by
    unfold resolveUser
    rcases h with ⟨h1, h2⟩ | ⟨h1, h2⟩
    · simp only [h1, if_false, h2]
    · simp only [h1, if_true, h2]
  cases rest with
  | nil => simp [main]
  | cons path more =>
    simp only [main, hu]
    split <;> simp

/-- C10, at concrete inputs: uid 0 written in hexadecimal, and the name of an
account whose uid is 0. -/
theorem main_refuses_root_witness :
    strisnum 4294967295 "0x0".toList 0 = (1, 0) ∧
    main (demoEnv Dqblk.zero) ["setquota", "0x0", "/home", "-b", "10:20"] =
      ⟨EXIT_FAILURE, [], none⟩ ∧
    main (demoEnv Dqblk.zero) ["setquota", "admin", "/home"] = ⟨EXIT_FAILURE, [], none⟩ :=
  ⟨by decide,
    main_refuses_root (demoEnv Dqblk.zero) "setquota" "0x0" ["/home", "-b", "10:20"]
      (Or.inl (by decide)),
    main_refuses_root (demoEnv Dqblk.zero) "setquota" "admin" ["/home"]
      (Or.inr (by decide))⟩

/-- C4, as stated, fails: the target is on device 7, the entry `/home` of the
table is on device 7 with `st_rdev` 0, yet no mount point is returned, because
the entry before it cannot be stat'ed and the loop stops there. -/
theorem get_mount_point_stops_at_stat_failure :
    staleEnv.resolvepath "/home/alice" = some "/home/alice" ∧
    staleEnv.stat "/home/alice" = some (7, 0) ∧
    staleEnv.mnttab DEFAULT_MNTTAB = some [MntRet.entry "/stale", MntRet.entry "/home"] ∧
    staleEnv.stat "/home" = some (7, 0) ∧
    (get_mount_point staleEnv "/home/alice" DEFAULT_MNTTAB).1 = none := by
  decide

/-- C4, amended: for a target that canonicalizes and stats and a mount table
that opens, `get_mount_point` returns the mount path of the first entry, among
those scanned before the first `getmntent` error or stat failure, whose device
id equals the target's and whose `st_rdev` is zero; it returns NULL exactly
when no scanned entry passes that test; whatever it returns is an entry of the
table with the target's device id and `st_rdev` zero; and when every entry
reads and stats, it returns NULL exactly when no entry of the table passes. -/
theorem get_mount_point_first_top_mount (env : Env) (path mnttab buf : String)
    (sb : Nat × Nat) (tbl : List MntRet)
    (hres : env.resolvepath path = some buf) (hstat : env.stat buf = some sb)
    (htab : env.mnttab mnttab = some tbl) :
    (get_mount_point env path mnttab).1 =
        ((scannedEntries env tbl).find? (isTopMountOf sb.1)).map (fun e => e.1) ∧
    ((get_mount_point env path mnttab).1 = none ↔
        ∀ e ∈ scannedEntries env tbl, ¬ (e.2.1 = sb.1 ∧ e.2.2 = 0)) ∧
    (∀ mp, (get_mount_point env path mnttab).1 = some mp →
        MntRet.entry mp ∈ tbl ∧ env.stat mp = some (sb.1, 0)) ∧
    ((∀ x ∈ tbl, ∃ mp msb, x = MntRet.entry mp ∧ env.stat mp = some msb) →
      ((get_mount_point env path mnttab).1 = none ↔
        ∀ mp, MntRet.entry mp ∈ tbl → env.stat mp ≠ some (sb.1, 0))) := by
  have h0 : (get_mount_point env path mnttab).1 =
      ((scannedEntries env tbl).find? (isTopMountOf sb.1)).map (fun e => e.1) := by
    simp [get_mount_point, hres, hstat, htab, scanMnttab_eq]
  have h1 : (get_mount_point env path mnttab).1 = none ↔
      ∀ e ∈ scannedEntries env tbl, ¬ (e.2.1 = sb.1 ∧ e.2.2 = 0) := by
    rw [h0]
    simp [List.find?_eq_none, isTopMountOf]
  refine ⟨h0, h1, ?_, ?_⟩
  · intro mp hmp
    rw [h0] at hmp
    simp only [Option.map_eq_some'] at hmp
    obtain ⟨e, he, rfl⟩ := hmp
    have hp := List.find?_some he
    have hm := mem_scannedEntries env tbl e (List.mem_of_find?_eq_some he)
    simp only [isTopMountOf, decide_eq_true_eq] at hp
    refine ⟨hm.1, ?_⟩
    rw [hm.2, ← hp.1, ← hp.2]
  · intro hall
    rw [h1]
    constructor
    · intro h mp hmp hs
      obtain ⟨msb, hs2, hin⟩ := mem_scannedEntries_of_readable env tbl hall mp hmp
      rw [hs] at hs2
      injection hs2 with hs2
      subst hs2
      exact h _ hin ⟨rfl, rfl⟩
    · intro h e he hc
      have hm := mem_scannedEntries env tbl e he
      apply h e.1 hm.1
      rw [hm.2, ← hc.1, ← hc.2]

/-- C4 amended, at a concrete input: `/home/alice` lies on the device of `/home`. -/
theorem get_mount_point_first_top_mount_witness :
    (demoEnv Dqblk.zero).resolvepath "/home/alice" = some "/home/alice" ∧
    (get_mount_point (demoEnv Dqblk.zero) "/home/alice" DEFAULT_MNTTAB).1 = some "/home" :=
  ⟨rfl, (get_mount_point_first_top_mount (demoEnv Dqblk.zero) "/home/alice" DEFAULT_MNTTAB
    "/home/alice" (7, 0) [MntRet.entry "/", MntRet.entry "/home"] rfl rfl rfl).1.trans
      (by decide)⟩

/-- C7, as stated, fails: `-b 2147483648:10` parses the soft limit
k = 2147483648, and the soft limit handed to the set operation is 0, not
twice k, because the doubling is done in 32 bits. -/
theorem main_block_limit_wraps :
    setnum 4294967295 "2147483648:10".toList 0 0 = ⟨0, 2147483648, 10, none⟩ ∧
    main (demoEnv Dqblk.zero) ["setquota", "alice", "/home", "-b", "2147483648:10"] =
      ⟨EXIT_SUCCESS,
        [Event.resolvepath "/home", Event.stat "/home", Event.fopen "/etc/mnttab",
          Event.getmntent, Event.stat "/", Event.getmntent, Event.stat "/home", Event.fclose,
          Event.openFile "/home/quotas" true, Event.ioctlGet 1000, Event.lseek,
          Event.ioctlSet 1000 ⟨20, 0, 0, 0, 0, 0, 0, 0⟩, Event.close],
        none⟩ := by
  decide

/-- C7, amended.  Set path: when the options all parse and the last `-b`
option gives k1:k2, whatever `-b` or `-f` options precede it and whatever `-f`
options follow it, `main` calls `setquota` with a non-empty mask and block
limits 2*k1 and 2*k2 reduced modulo 2^32, which is exactly 2*k1 when k1 is
below 2^31 and exactly 2*k2 when k2 is below 2^31, and every set operation of
the run carries these block limits.  Report path: without options `main`
prints each stored block value halved and the file values unchanged, so a
stored block limit 2*k is reported as k. -/
theorem main_block_units :
    (∀ (env : Env) (prog user path : String) (rest : List String)
        (pre post : List (Char × String)) (arg : String) (uid k1 k2 : Nat),
      path.toList.head? ≠ some '-' →
      resolveUser env user = some uid → uid ≠ 0 →
      env.getopt (path :: rest) = pre ++ ('b', arg) :: post →
      (∀ o ∈ pre, (o.1 = 'b' ∨ o.1 = 'f') ∧ (setnum env.ulmax o.2.toList 0 0).ret = 0) →
      (∀ o ∈ post, o.1 = 'f' ∧ (setnum env.ulmax o.2.toList 0 0).ret = 0) →
      setnum env.ulmax arg.toList 0 0 = ⟨0, k1, k2, none⟩ →
      ∃ qd fl,
        fl ≠ 0 ∧
        qd.dqb_bsoftlimit = (2 * k1) % 2 ^ 32 ∧ qd.dqb_bhardlimit = (2 * k2) % 2 ^ 32 ∧
        (k1 < 2 ^ 31 → qd.dqb_bsoftlimit = 2 * k1) ∧
        (k2 < 2 ^ 31 → qd.dqb_bhardlimit = 2 * k2) ∧
        (∀ mp t, get_mount_point env path DEFAULT_MNTTAB = (some mp, t) →
          main env (prog :: user :: path :: rest) =
            ⟨(if (setquota env uid (mp ++ "/" ++ QUOTAFILE) qd fl).1 < 0 then EXIT_FAILURE
              else EXIT_SUCCESS),
              t ++ (setquota env uid (mp ++ "/" ++ QUOTAFILE) qd fl).2, none⟩) ∧
        (∀ u r, Event.ioctlSet u r ∈ (main env (prog :: user :: path :: rest)).trace →
          r.dqb_bsoftlimit = (2 * k1) % 2 ^ 32 ∧ r.dqb_bhardlimit = (2 * k2) % 2 ^ 32 ∧
          (k1 < 2 ^ 31 → r.dqb_bsoftlimit = 2 * k1) ∧
          (k2 < 2 ^ 31 → r.dqb_bhardlimit = 2 * k2))) ∧
    (∀ (env : Env) (prog user path mp : String) (rest : List String) (uid : Nat)
        (t : List Event) (r : Dqblk),
      path.toList.head? ≠ some '-' →
      resolveUser env user = some uid → uid ≠ 0 →
      env.getopt (path :: rest) = [] →
      get_mount_point env path DEFAULT_MNTTAB = (some mp, t) →
      env.openOk (mp ++ "/" ++ QUOTAFILE) false = true →
      env.getRes uid = Except.ok r →
      main env (prog :: user :: path :: rest) =
        ⟨EXIT_SUCCESS,
          t ++ [Event.openFile (mp ++ "/" ++ QUOTAFILE) false, Event.ioctlGet uid, Event.close],
          some
            { filesystem := mp
              blocksUsage := r.dqb_curblocks / 2
              blocksSoft := r.dqb_bsoftlimit / 2
              blocksHard := r.dqb_bhardlimit / 2
              blocksExceeded := decide (r.dqb_btimelimit ≠ 0)
              filesUsage := r.dqb_curfiles
              filesSoft := r.dqb_fsoftlimit
              filesHard := r.dqb_fhardlimit
              filesExceeded := decide (r.dqb_ftimelimit ≠ 0) }⟩ ∧
      (∀ k, r.dqb_bsoftlimit = 2 * k →
        ∃ rep, (main env (prog :: user :: path :: rest)).out = some rep ∧ rep.blocksSoft = k) ∧
      (∀ k, r.dqb_bhardlimit = 2 * k →
        ∃ rep, (main env (prog :: user :: path :: rest)).out = some rep ∧
          rep.blocksHard = k)) := by
  constructor
  · intro env prog user path rest pre post arg uid k1 k2 hpath huser huid hopt hpre hpost hnum
    obtain ⟨qd, fl, hloop, hs, hh, hb0, hb1⟩ :=
      optLoop_last_b env.ulmax pre post arg k1 k2 hpre hpost hnum Dqblk.zero 0
    have hfl : fl ≠ 0 := by
      intro e
      rw [e] at hb0
      simp at hb0
    have hmain : main env (prog :: user :: path :: rest) = mainQuota env uid path qd fl := by
      simp only [main, hpath, huser, huid, List.drop, hopt, hloop, if_false]
    have e1 : k1 < 2 ^ 31 → (2 * k1) % 2 ^ 32 = 2 * k1 := by
      intro h; omega
    have e2 : k2 < 2 ^ 31 → (2 * k2) % 2 ^ 32 = 2 * k2 := by
      intro h; omega
    refine ⟨qd, fl, hfl, hs, hh, fun h => by rw [hs, e1 h], fun h => by rw [hh, e2 h], ?_, ?_⟩
    · intro mp t hmp
      rw [hmain]
      simp only [mainQuota, hmp, hfl, if_false]
      split <;> simp
    · intro u r hmem
      rw [hmain] at hmem
      have hset : ∃ mp, Event.ioctlSet u r ∈
          (setquota env uid (mp ++ "/" ++ QUOTAFILE) qd fl).2 := by
        have hno := ioctlSet_not_mem_get_mount_point env path DEFAULT_MNTTAB u r
        unfold mainQuota at hmem
        cases hm : (get_mount_point env path DEFAULT_MNTTAB).1 with
        | none =>
          simp only [hm] at hmem
          exact absurd hmem hno
        | some mp =>
          refine ⟨mp, ?_⟩
          simp only [hm, hfl, if_false] at hmem
          split at hmem
          · rcases List.mem_append.1 hmem with h | h
            · exact absurd h hno
            · exact h
          · rcases List.mem_append.1 hmem with h | h
            · exact absurd h hno
            · exact h
      obtain ⟨mp, hin⟩ := hset
      obtain ⟨base, hr⟩ := mem_setquota_trace env uid _ qd fl u r hin
      rw [mergeLimits_fields] at hr
      have rs : r.dqb_bsoftlimit = qd.dqb_bsoftlimit := by rw [hr]; simp [hb0]
      have rh : r.dqb_bhardlimit = qd.dqb_bhardlimit := by rw [hr]; simp [hb1]
      exact ⟨by rw [rs, hs], by rw [rh, hh], fun h => by rw [rs, hs, e1 h],
        fun h => by rw [rh, hh, e2 h]⟩
  · intro env prog user path mp rest uid t r hpath huser huid hopt hmp hopen hget
    have hpath2 : ¬ path.data.head? = some '-' := hpath
    have hrep : main env (prog :: user :: path :: rest) =
        ⟨EXIT_SUCCESS,
          t ++ [Event.openFile (mp ++ "/" ++ QUOTAFILE) false, Event.ioctlGet uid, Event.close],
          some (report mp r)⟩ := by
      simp [main, hpath2, huser, huid, hopt, optLoop, mainQuota, hmp, getquota, hopen, hget,
        EXIT_SUCCESS]
    refine ⟨?_, ?_, ?_⟩
    · rw [hrep]
      simp [report, Nat.shiftRight_eq_div_pow]
    · intro k hk
      rw [hrep]
      exact ⟨report mp r, rfl, by simp [report, Nat.shiftRight_eq_div_pow, hk]⟩
    · intro k hk
      rw [hrep]
      exact ⟨report mp r, rfl, by simp [report, Nat.shiftRight_eq_div_pow, hk]⟩

/-- C7 amended, at concrete inputs: `-b 50:100` between two `-f` options hands
block limits 100 and 200 to the set operation, and stored usage 200 with soft
limit 100 is shown as 100 and 50. -/
theorem main_block_units_witness :
    setnum 4294967295 "50:100".toList 0 0 = ⟨0, 50, 100, none⟩ ∧
    Event.ioctlSet 1000 ⟨200, 100, 0, 8, 7, 0, 0, 0⟩ ∈
      (main (demoEnv Dqblk.zero)
        ["setquota", "alice", "/home", "-f", "5:6", "-b", "50:100", "-f", "7:8"]).trace ∧
    (∀ u r, Event.ioctlSet u r ∈
        (main (demoEnv Dqblk.zero)
          ["setquota", "alice", "/home", "-f", "5:6", "-b", "50:100", "-f", "7:8"]).trace →
      r.dqb_bsoftlimit = 100 ∧ r.dqb_bhardlimit = 200) ∧
    (main (demoEnv ⟨200, 100, 200, 0, 0, 0, 0, 0⟩) ["setquota", "alice", "/home"]).out =
      some ⟨"/home", 100, 50, 100, false, 0, 0, 0, false⟩ := by
  refine ⟨by decide, by decide, ?_, ?_⟩
  · obtain ⟨qd, fl, _, _, _, _, _, _, h⟩ :=
      main_block_units.1 (demoEnv Dqblk.zero) "setquota" "alice" "/home"
        ["-f", "5:6", "-b", "50:100", "-f", "7:8"] [('f', "5:6")] [('f', "7:8")] "50:100"
        1000 50 100 (by decide) (by decide) (by decide) (by decide) (by decide) (by decide)
        (by decide)
    intro u r hmem
    exact ⟨(h u r hmem).2.2.1 (by decide), (h u r hmem).2.2.2 (by decide)⟩
  · exact (congrArg MainResult.out
      (main_block_units.2 (demoEnv ⟨200, 100, 200, 0, 0, 0, 0, 0⟩) "setquota" "alice" "/home"
        "/home" [] 1000
        [Event.resolvepath "/home", Event.stat "/home", Event.fopen "/etc/mnttab",
          Event.getmntent, Event.stat "/", Event.getmntent, Event.stat "/home", Event.fclose]
        ⟨200, 100, 200, 0, 0, 0, 0, 0⟩ (by decide) (by decide) (by decide) (by decide)
        (by decide) (by decide) rfl).1).trans (by decide)

/-- C5, as stated, fails: `123` is a valid decimal literal of 123, and with one
space after it `strisnum` returns 0, on a 32-bit and on a 64-bit platform. -/
theorem strisnum_rejects_trailing_space :
    NumLiteral 123 "123".toList ∧ isspace ' ' = true ∧
    strisnum 4294967295 ("123".toList ++ [' ']) 0 = (0, 123) ∧
    strisnum 18446744073709551615 ("123".toList ++ [' ']) 0 = (0, 123) :=
  ⟨NumLiteral.decimal "123".toList (by decide) (by decide) (by decide), by decide, by decide,
    by decide⟩

/-- C5, amended: for every n below 2^32 and every valid literal of n, decimal,
octal (leading 0), hexadecimal (0x or 0X) or binary (0b or 0B), with optional
white space before the literal and nothing after it, `strisnum` returns 1 and
stores exactly n (`ULONG_MAX` being at least 2^32 - 1). -/
theorem strisnum_literal (ulmax n val : Nat) (ws lit : List Char)
    (hul : 4294967295 ≤ ulmax) (hn : n < 2 ^ 32)
    (hws : ∀ c ∈ ws, isspace c = true) (hlit : NumLiteral n lit) :
    strisnum ulmax (ws ++ lit) val = (1, n) := by
  have hv : n ≤ ulmax := by omega
  cases hlit with
  | decimal _ hne hd h0 => exact strisnum_decimal ulmax val ws _ hws hne hd h0 hv hn
  | octal ds hd => exact strisnum_octal ulmax val ws ds hws hd hv hn
  | hex x ds hx hne hd => exact strisnum_hex ulmax val ws ds x hws hx hne hd hv hn
  | binary b ds hb hne hd => exact strisnum_binary ulmax val ws ds b hws hb hne hd hv hn

/-- C5 amended, at a concrete input: a hexadecimal literal after a space and a tab. -/
theorem strisnum_literal_witness :
    (4294967295 : Nat) ≤ 4294967295 ∧ (31 : Nat) < 2 ^ 32 ∧
    strisnum 4294967295 ([' ', '\t'] ++ "0x1F".toList) 7 = (1, 31) :=
  ⟨by decide, by decide,
    strisnum_literal 4294967295 31 7 [' ', '\t'] "0x1F".toList (by decide) (by decide)
      (by decide) (NumLiteral.hex 'x' "1F".toList (by decide) (by decide) (by decide))⟩

/-- C6: `strisnum` accepts no partial parse.  When nothing is left after the
white space and the optional `0b`/`0B`, it returns 0 and stores nothing; when
the conversion leaves a character unconsumed it returns 0; it returns 1 exactly
when something is left to convert and the conversion consumes it to the end;
what the conversion leaves is always a suffix of what it was given.  So
`123x`, `0x`, `0b12`, `0b` and a blank string are all rejected. -/
theorem strisnum_whole_text_only (ulmax : Nat) (str : List Char) (val : Nat) :
    ((strisnumHead str).1 = [] → strisnum ulmax str val = (0, val)) ∧
    ((strtoul ulmax (strisnumHead str).1 (strisnumHead str).2).2 ≠ [] →
      (strisnum ulmax str val).1 = 0) ∧
    ((strisnum ulmax str val).1 = 1 ↔
      (strisnumHead str).1 ≠ [] ∧
        (strtoul ulmax (strisnumHead str).1 (strisnumHead str).2).2 = []) ∧
    ((strisnum ulmax str val).1 = 0 ∨ (strisnum ulmax str val).1 = 1) ∧
    (strtoul ulmax (strisnumHead str).1 (strisnumHead str).2).2 <:+ (strisnumHead str).1 ∧
    (strisnum ulmax "123x".toList val).1 = 0 ∧
    (strisnum ulmax "0x".toList val).1 = 0 ∧
    (strisnum ulmax "0b12".toList val).1 = 0 ∧
    (strisnum ulmax "0b".toList val).1 = 0 ∧
    (strisnum ulmax "  ".toList val).1 = 0 := by
  refine ⟨?_, ?_, ?_, strisnum_ret ulmax str val, strtoul_suffix _ _ _, ?_, ?_, ?_, ?_, ?_⟩
  · intro h
    simp [strisnum, h]
  · intro h
    unfold strisnum
    by_cases h0 : (strisnumHead str).1 = [] <;> simp [h0, h]
  · unfold strisnum
    by_cases h1 : (strisnumHead str).1 = []
    · simp [h1]
    · by_cases h2 : (strtoul ulmax (strisnumHead str).1 (strisnumHead str).2).2 = [] <;>
        simp [h1, h2]
  · rw [strisnum_ret_indep ulmax 0 _ val 0]; decide
  · rw [strisnum_ret_indep ulmax 0 _ val 0]; decide
  · rw [strisnum_ret_indep ulmax 0 _ val 0]; decide
  · rw [strisnum_ret_indep ulmax 0 _ val 0]; decide
  · rw [strisnum_ret_indep ulmax 0 _ val 0]; decide

/-- C6, at a concrete input: nothing follows the binary marker. -/
theorem strisnum_whole_text_only_witness :
    (strisnumHead "0b".toList).1 = [] ∧ strisnum 4294967295 "0b".toList 7 = (0, 7) :=
  ⟨by decide, (strisnum_whole_text_only 4294967295 "0b".toList 7).1 (by decide)⟩

/-- C8: `setnum` splits at the first colon only.  Without a colon it fails with
the missing delimiter diagnostic and leaves both outputs alone.  On `L:R`
with no colon in `L` it returns 0 exactly when `strisnum` accepts both `L` and
`R`, and then stores the value of `L` and the value of `R`; when `L` is
rejected it returns -1 and names `L`; when `L` is accepted and `R` rejected it
returns -1 and names `R`. -/
theorem setnum_splits_at_first_colon (ulmax a0 b0 : Nat) (s l r : List Char)
    (hs : ':' ∉ s) (hl : ':' ∉ l) :
    setnum ulmax s a0 b0 = ⟨-1, a0, b0, some Diag.missingDelim⟩ ∧
    ((setnum ulmax (l ++ ':' :: r) a0 b0).ret = 0 ↔
      (strisnum ulmax l a0).1 = 1 ∧ (strisnum ulmax r b0).1 = 1) ∧
    ((strisnum ulmax l a0).1 = 1 → (strisnum ulmax r b0).1 = 1 →
      setnum ulmax (l ++ ':' :: r) a0 b0 =
        ⟨0, (strisnum ulmax l a0).2, (strisnum ulmax r b0).2, none⟩) ∧
    ((strisnum ulmax l a0).1 = 0 →
      (setnum ulmax (l ++ ':' :: r) a0 b0).ret = -1 ∧
      (setnum ulmax (l ++ ':' :: r) a0 b0).err = some (Diag.notNumeric l)) ∧
    ((strisnum ulmax l a0).1 = 1 → (strisnum ulmax r b0).1 = 0 →
      (setnum ulmax (l ++ ':' :: r) a0 b0).ret = -1 ∧
      (setnum ulmax (l ++ ':' :: r) a0 b0).err = some (Diag.notNumeric r)) := by
  have hsplit := splitFirst_append ':' l r hl
  refine ⟨by simp [setnum, splitFirst_none ':' s hs], ?_, ?_, ?_, ?_⟩
  · rcases strisnum_ret ulmax l a0 with ha | ha <;> rcases strisnum_ret ulmax r b0 with hb | hb <;>
      simp [setnum, hsplit, ha, hb]
  · intro ha hb
    simp [setnum, hsplit, ha, hb]
  · intro ha
    simp [setnum, hsplit, ha]
  · intro ha hb
    simp [setnum, hsplit, ha, hb]


/-- C8, at concrete inputs: `10` has no delimiter, `10:20` gives 10 and 20. -/
theorem setnum_splits_at_first_colon_witness :
    ':' ∉ "10".toList ∧
    setnum 4294967295 "10".toList 0 0 = ⟨-1, 0, 0, some Diag.missingDelim⟩ ∧
    setnum 4294967295 ("10".toList ++ ':' :: "20".toList) 0 0 = ⟨0, 10, 20, none⟩ ∧
    (setnum 4294967295 ("x".toList ++ ':' :: "20".toList) 0 0).err =
      some (Diag.notNumeric "x".toList) :=
  ⟨by decide,
    (setnum_splits_at_first_colon 4294967295 0 0 "10".toList "10".toList "20".toList
      (by decide) (by decide)).1,
    ((setnum_splits_at_first_colon 4294967295 0 0 "10".toList "10".toList "20".toList
      (by decide) (by decide)).2.2.1 (by decide) (by decide)).trans (by decide),
    ((setnum_splits_at_first_colon 4294967295 0 0 "10".toList "x".toList "20".toList
      (by decide) (by decide)).2.2.2.1 (by decide)).2⟩

end Setquota
